import Mathlib

/-!
Verification development for the haptic-client repository.

We shallowly embed the frame-conversion, color-conversion, vendor keyframe
formatting, control-command handling, heartbeat handling and reconnect-backoff
logic of the repository, and prove the spec's testable properties about the
embedding.

JSON values decoded by json.loads are modelled by the inductive type J below.
Numbers are modelled as integers: every conversion path under scrutiny funnels
numeric fields through int(...), and the payloads in the spec use integers.
Python dicts appear as association lists with unique keys (json.loads keeps at
most one binding per key).
-/

namespace HapticClient

/-- JSON value model: null, booleans, integers, strings, arrays, objects. -/
inductive J : Type where
  | null : J
  | bool (b : Bool) : J
  | int (n : Int) : J
  | str (s : String) : J
  | arr (xs : List J) : J
  | obj (kvs : List (String × J)) : J

/-- First binding of key k in an object's association list (dict lookup). -/
def lookupKey (kvs : List (String × J)) (k : String) : Option J :=
  (kvs.find? (fun p => p.1 == k)).map (fun p => p.2)

/-- Python dict.get(k, d): the binding of k, or the default d. -/
def objGetD (kvs : List (String × J)) (k : String) (d : J) : J :=
  (lookupKey kvs k).getD d

/-- Whether an object has a binding for key k ("k" in payload). -/
def hasKey (kvs : List (String × J)) (k : String) : Bool :=
  kvs.any (fun p => p.1 == k)

/-- Python int(x) on a JSON value, as an optional integer: ints pass through,
booleans coerce to 0/1, strings parse, everything else raises (none).
Models the try/int pattern used throughout the converters. -/
def pyToInt? : J → Option Int
  | .int n => some n
  | .bool b => some (cond b 1 0)
  | .str s => s.toInt?
  | _ => none

/-- Models the helper named in the source as a static method on the
converters: try int(x) except return the default. (exp_client.py lines
291-296, picture2notes_client.py lines 237-240). -/
def toIntD (d : Int) (x : J) : Int :=
  (pyToInt? x).getD d

/-- Models the list-coercion static helper on the converters: None becomes the
empty list, a list stays itself, anything else is wrapped in a singleton
(exp_client.py lines 283-289). -/
def asList : J → List J
  | .null => []
  | .arr xs => xs
  | x => [x]

/-- Python list repetition xs * n: n concatenated copies of xs. -/
def pyListMul (xs : List J) (n : Nat) : List J :=
  (List.replicate n xs).foldr (fun a b => a ++ b) []

/-- One item of the serial command stream built by the converters: either a
textual actuator command (a Python str in the source) or a pause duration in
milliseconds (a Python int in the source). -/
inductive SItem : Type where
  | cmd (s : String) : SItem
  | sleep (ms : Int) : SItem
deriving DecidableEq, Repr

/-- The serial actuate command string built in the source by the f-string
with the L tag, a node index and an intensity (exp_client.py line 370). -/
def mkCmd (idx val : Int) : SItem :=
  .cmd ("[L," ++ toString idx ++ ":" ++ toString val ++ "]")

/-- Models the inner loop over enumerate(idxs) in the frame-node handling
(exp_client.py lines 362-370): a bad node index is skipped, otherwise the
intensity at the same position (0 beyond the end of vals) is emitted. -/
def emitNodes (vals : List J) : Nat → List J → List SItem
  | _, [] => []
  | i, idx :: rest =>
    match pyToInt? idx with
    | none => emitNodes vals (i + 1) rest
    | some n => mkCmd n (toIntD 0 (vals.getD i (J.int 0))) :: emitNodes vals (i + 1) rest

/-- Models the handling of one frame-node dict (exp_client.py lines 351-370,
identical in picture2notes_client.py lines 271-285): coerce node_index and
intensity to lists, broadcast a singleton intensity over a longer index list,
then emit one actuate command per parseable index. -/
def parseFrameNode (kvs : List (String × J)) : List SItem :=
  let idxs := asList (objGetD kvs "node_index" (J.arr []))
  let vals0 := asList (objGetD kvs "intensity" (J.arr []))
  let vals := if vals0.length == 1 && decide (1 < idxs.length)
              then pyListMul vals0 idxs.length else vals0
  emitNodes vals 0 idxs

/-- Models one iteration of the frame loop (exp_client.py lines 332-373,
picture2notes_client.py lines 262-286): a bare int frame is appended as a
pause, a non-dict non-int frame is skipped with a warning; for a dict frame
the frame_nodes (dict coerced to a singleton list, non-list coerced to empty)
are emitted followed by the frame's duration. Python treats bool as int, so a
JSON boolean frame is appended as a 0/1 pause. -/
def parseFrame : J → List SItem
  | .int n => [.sleep n]
  | .bool b => [.sleep (cond b 1 0)]
  | .obj kvs =>
    let dur := toIntD 0 (objGetD kvs "duration" (J.int 0))
    let fns : List J :=
      match objGetD kvs "frame_nodes" (J.arr []) with
      | .obj o => [J.obj o]
      | .arr xs => xs
      | _ => []
    (fns.foldr (fun fn acc =>
      (match fn with
       | .obj o => parseFrameNode o
       | _ => []) ++ acc) [])
    ++ [.sleep dur]
  | _ => []

/-- Models the frames loop of the serial converters: each frame's contribution
in order (exp_client.py lines 331-373). -/
def parseFrames (frames : List J) : List SItem :=
  frames.foldr (fun f acc => parseFrame f ++ acc) []

/-- Models the per-value branch of the dict case of the sentence walk
(exp_client.py lines 301-311): a list value is a frame list, a dict value is a
singleton frame list, an int (or bool) value is appended as a pause, anything
else is ignored with a warning. -/
def parseDictValue : J → List SItem
  | .arr xs => parseFrames xs
  | .obj o => parseFrames [J.obj o]
  | .int n => [.sleep n]
  | .bool b => [.sleep (cond b 1 0)]
  | _ => []

/-- Models SerialFrameConverter sentence parsing (exp_client.py lines
298-315): a dict walks its values, a list is a frame list, anything else
raises TypeError (modelled as the error of an Except). -/
def expParseSentence : J → Except Unit (List SItem)
  | .obj kvs => .ok (kvs.foldr (fun p acc => parseDictValue p.2 ++ acc) [])
  | .arr xs => .ok (parseFrames xs)
  | _ => .error ()

/-- Models ContourToSerial sentence parsing (picture2notes_client.py lines
242-259): a server envelope dict is ignored, a dict walks its values, a list
is a frame list, a bare int (or bool) becomes a pause, and any other payload
is merely logged — this variant never raises. -/
def contourParseSentence : J → List SItem
  | .obj kvs =>
    if hasKey kvs "type" && hasKey kvs "message" then []
    else kvs.foldr (fun p acc => parseDictValue p.2 ++ acc) []
  | .arr xs => parseFrames xs
  | .int n => [.sleep n]
  | .bool b => [.sleep (cond b 1 0)]
  | _ => []

/-- Python round(x) with no digits argument: round half to even (banker's
rounding), modelled on exact rationals. -/
def pyRound (q : ℚ) : Int :=
  if q - ⌊q⌋ < 1 / 2 then ⌊q⌋
  else if (1 : ℚ) / 2 < q - ⌊q⌋ then ⌊q⌋ + 1
  else if Even ⌊q⌋ then ⌊q⌋ else ⌊q⌋ + 1

/-- Clamp an integer into the byte range used for channels and intensities. -/
def clamp255 (n : Int) : Int := max 0 (min 255 n)

/-- Models the scale closure of the color converters (rpi_color_client.py
lines 116-118, picture2notes_client.py lines 211-213): clamp the channel to
0..255, divide by 255 and multiply by the clamped intensity, then round. The
source computes this with Python floats; the quotient times an integer never
lands exactly on a half (255 is odd), so exact rational rounding agrees. -/
def scaleChan (intensity chan : Int) : Int :=
  pyRound ((clamp255 chan : ℚ) / 255 * (clamp255 intensity : ℚ))

/-- Models the Python idiom payload.get("color", {}) or {} followed by
attribute access: a falsy value is replaced by the empty dict, a dict is used
as is, and a truthy non-dict makes the subsequent .get raise (none). -/
def orEmptyObj : J → Option (List (String × J))
  | .obj kvs => some kvs
  | .null => some []
  | .bool false => some []
  | .int 0 => some []
  | .str "" => some []
  | .arr [] => some []
  | _ => none

/-- Models ColorConverter color parsing (rpi_color_client.py lines 108-133,
identical in picture2notes_client.py lines 206-219): read r, g, b from the
color object, scale each by the intensity (default 255), emit three actuate
commands on the fixed nodes 9, 6 and 4, then the duration (default 160,
floored at 0) as the pause. A non-dict payload raises on .get (none). -/
def parseColors : J → Option (List SItem)
  | .obj kvs =>
    match orEmptyObj (objGetD kvs "color" (J.obj [])) with
    | none => none
    | some c =>
      let r := toIntD 0 (objGetD c "r" (J.int 0))
      let g := toIntD 0 (objGetD c "g" (J.int 0))
      let b := toIntD 0 (objGetD c "b" (J.int 0))
      let i := toIntD 255 (objGetD kvs "intensity" (J.int 255))
      let d := toIntD 160 (objGetD kvs "duration" (J.int 160))
      some [mkCmd 9 (scaleChan i r), mkCmd 6 (scaleChan i g),
            mkCmd 4 (scaleChan i b), .sleep (max 0 d)]
  | _ => none

/-- Mutable state of the picture2notes stream loop that the control commands
touch: the selected output backend and the payload-interpretation mode. -/
structure LoopState : Type where
  outputChoice : String
  mode : String
deriving DecidableEq, Repr

/-- Reply sent back on the connection by the control-command handler, given
in the source as json.dumps of a small object. -/
inductive Reply : Type where
  | ackOutput (o : String) : Reply
  | curOutput (o : String) : Reply
  | ackMode (m : String) : Reply
  | curMode (m : String) : Reply
deriving DecidableEq, Repr

/-- Models the cmd-handling block of websocket_loop (picture2notes_client.py
lines 492-514). The value argument arrives already lowercased, as in the
source. set_output accepts serial, skinetic or both; set_mode accepts color,
contour or auto; an accepted value updates the state and sends an
acknowledgment carrying the new value; any other value leaves the state
untouched and sends nothing. -/
def handleCmd (st : LoopState) (cmd value : String) : LoopState × List Reply :=
  if cmd == "set_output" then
    if value == "serial" || value == "skinetic" || value == "both" then
      ({ st with outputChoice := value }, [.ackOutput value])
    else (st, [])
  else if cmd == "get_output" then (st, [.curOutput st.outputChoice])
  else if cmd == "set_mode" then
    if value == "color" || value == "contour" || value == "auto" then
      ({ st with mode := value }, [.ackMode value])
    else (st, [])
  else if cmd == "get_mode" then (st, [.curMode st.mode])
  else (st, [])

/-- Frame event fed to the vendor formatter (inputs/image_processor.py lines
17-21): traversal order, target node, intensity and duration in ms. -/
structure FrameEvent : Type where
  order : Int
  node_index : Int
  intensity : Int
  duration : Int
deriving DecidableEq, Repr

/-- Vendor keyframe (outputs/schemas.py lines 5-8): a diagnostic annotation,
a timestamp and a 20-slot integer weight vector. -/
structure SpatKeyFrame : Type where
  annotation : String
  timestamp : ℚ
  weights : List Int
deriving DecidableEq, Repr

/-- Models the keyframe construction in HapticProcessorInput.format
(inputs/image_processor.py lines 68-81): a 20-slot zero vector with the
clamped intensity placed at node_index when that index lies in 0..19, the
annotation recording the raw event fields, and timestamp kept at 0. -/
def mkKeyFrame (ev : FrameEvent) : SpatKeyFrame :=
  let base := List.replicate 20 (0 : Int)
  ⟨"node=" ++ toString ev.node_index ++ ",intensity=" ++ toString ev.intensity
     ++ ",dur=" ++ toString ev.duration,
   0,
   if 0 ≤ ev.node_index ∧ ev.node_index < 20
   then base.set ev.node_index.toNat (clamp255 ev.intensity)
   else base⟩

/-- Insert an event into a list sorted by order, before any later-input event
with the same order (building block of the stable sort below). -/
def insertByOrder (e : FrameEvent) : List FrameEvent → List FrameEvent
  | [] => [e]
  | x :: xs => if x.order < e.order then x :: insertByOrder e xs else e :: x :: xs

/-- Models the Python sorted(frame_list, key=lambda e: e.order) call
(inputs/image_processor.py line 67). Python's sort is stable; this stable
insertion sort agrees with it on every input, since any two stable sorts by
the same key coincide. -/
def sortByOrder : List FrameEvent → List FrameEvent
  | [] => []
  | e :: es => insertByOrder e (sortByOrder es)

/-- Models the keyframe list built by HapticProcessorInput.format
(inputs/image_processor.py lines 64-81): one keyframe per event, in ascending
order of the order field. -/
def formatKeyframes (evs : List FrameEvent) : List SpatKeyFrame :=
  (sortByOrder evs).map mkKeyFrame

/-- Models one trip around the reconnect loop of websocket_client
(exp_client.py lines 545-553 and 638-649): a successful connect resets the
backoff to the initial 2 seconds; the wait after the trip is the current
backoff, which is then doubled and capped at 30. Returns the wait performed
and the backoff carried into the next trip. -/
def loopStep (connected : Bool) (b : Nat) : Nat × Nat :=
  let b1 := if connected then 2 else b
  (b1, min 30 (2 * b1))

/-- Waits performed over k consecutive failed connection attempts starting
from backoff b, read off loopStep. -/
def failWaits (b : Nat) : Nat → List Nat
  | 0 => []
  | k + 1 => (loopStep false b).1 :: failWaits (loopStep false b).2 k

/-- Classification of one received websocket message as the receive loop sees
it (exp_client.py lines 555-586): the literal heartbeat text, undecodable or
non-JSON text, or a decoded JSON payload. -/
inductive Msg : Type where
  | ping : Msg
  | nonJson : Msg
  | json (p : J) : Msg

/-- Observable outcome of handling one message: pong replies attempted,
warnings logged, whether the payload went on to conversion and dispatch, and
whether the receive loop keeps running. -/
structure MsgOutcome : Type where
  pongsSent : Nat
  warningsLogged : Nat
  converted : Bool
  loopContinues : Bool
deriving DecidableEq, Repr

/-- Whether a payload is a server event envelope, tested before conversion
(exp_client.py line 584). -/
def isEnvelope : J → Bool
  | .obj kvs => hasKey kvs "type" && hasKey kvs "message"
  | _ => false

/-- Models the per-message branch of the receive loop (exp_client.py lines
567-586, same shape in rpi_color_client.py lines 230-248): the heartbeat text
gets exactly one pong reply whose send failure is only logged, and skips
conversion; non-JSON text is logged and skipped; an envelope is logged and
skipped; any other payload is converted and dispatched. Every branch
continues the loop. -/
def handleMsg (pongSendOk : Bool) : Msg → MsgOutcome
  | .ping => ⟨1, cond pongSendOk 0 1, false, true⟩
  | .nonJson => ⟨0, 1, false, true⟩
  | .json p => if isEnvelope p then ⟨0, 0, false, true⟩ else ⟨0, 0, true, true⟩

/-! Helper lemmas. -/

/-- Python list repetition of a singleton list is replicate. -/
lemma pyListMul_singleton (x : J) (n : Nat) :
    pyListMul [x] n = List.replicate n x := by
  induction n with
  | zero => rfl
  | succ k ih =>
    show [x] ++ pyListMul [x] k = List.replicate (k + 1) x
    rw [ih]
    rfl

/-- Reading inside a replicate list with getD yields the replicated value. -/
lemma getD_replicate_of_lt {A : Type} (n i : Nat) (x d : A) (h : i < n) :
    (List.replicate n x).getD i d = x := by
  induction n generalizing i with
  | zero => omega
  | succ k ih =>
    cases i with
    | zero => rfl
    | succ j => simp only [List.replicate, List.getD_cons_succ]; exact ih j (by omega)

/-- The node-emission loop over a pure integer index list, when the intensity
list answers the same value at every visited position, emits one actuate per
index in the given order, all carrying that value. -/
lemma emitNodes_map_int (v : Int) (vals : List J) (idxs : List Int) (i0 : Nat)
    (hv : ∀ j, i0 ≤ j → j < i0 + idxs.length → vals.getD j (J.int 0) = J.int v) :
    emitNodes vals i0 (idxs.map J.int) = idxs.map (fun n => mkCmd n v) := by
  induction idxs generalizing i0 with
  | nil => rfl
  | cons n rest ih =>
    have h0 : vals.getD i0 (J.int 0) = J.int v :=
      hv i0 (le_refl _) (by simp only [List.length_cons]; omega)
    simp only [List.map_cons, emitNodes, pyToInt?, h0, toIntD, Option.getD_some,
      List.cons.injEq, true_and]
    exact ih (i0 + 1) (fun j hj1 hj2 =>
      hv j (by omega) (by simp only [List.length_cons] at hj2 ⊢; omega))

/-- A frame node with a scalar intensity and an integer index list longer
than one broadcasts the intensity across all indices, in order. -/
lemma parseFrameNode_broadcast (idxs : List Int) (v : Int) (h : 1 < idxs.length) :
    parseFrameNode [("node_index", J.arr (idxs.map J.int)), ("intensity", J.int v)]
      = idxs.map (fun n => mkCmd n v) := by
  have hc : ([J.int v].length == 1 && decide (1 < (idxs.map J.int).length)) = true := by
    simp [h]
  rw [show parseFrameNode [("node_index", J.arr (idxs.map J.int)), ("intensity", J.int v)]
      = emitNodes (if ([J.int v].length == 1 && decide (1 < (idxs.map J.int).length))
                   then pyListMul [J.int v] (idxs.map J.int).length
                   else [J.int v]) 0 (idxs.map J.int) from rfl, hc]
  show emitNodes (pyListMul [J.int v] (idxs.map J.int).length) 0 (idxs.map J.int)
      = idxs.map (fun n => mkCmd n v)
  rw [pyListMul_singleton, List.length_map]
  exact emitNodes_map_int v _ idxs 0
    (fun j hj1 hj2 => getD_replicate_of_lt _ _ _ _ (by omega))

/-- Every item emitted by the node loop is an actuate command. -/
lemma emitNodes_all_cmd (vals : List J) (i0 : Nat) (idxs : List J) :
    ∀ x ∈ emitNodes vals i0 idxs, ∃ n w, x = mkCmd n w := by
  induction idxs generalizing i0 with
  | nil => intro x hx; cases hx
  | cons idx rest ih =>
    intro x hx
    simp only [emitNodes] at hx
    cases hp : pyToInt? idx with
    | none => rw [hp] at hx; exact ih (i0 + 1) x hx
    | some n =>
      rw [hp] at hx
      rcases List.mem_cons.mp hx with h | h
      · exact ⟨n, _, h⟩
      · exact ih (i0 + 1) x h

/-- Every item contributed by the frame-node fold of a frame is an actuate
command. -/
lemma frameNodes_fold_all_cmd (fns : List J) :
    ∀ x ∈ fns.foldr (fun fn acc =>
        (match fn with
         | J.obj o => parseFrameNode o
         | _ => []) ++ acc) [],
      ∃ n w, x = mkCmd n w := by
  induction fns with
  | nil => intro x hx; cases hx
  | cons fn rest ih =>
    intro x hx
    simp only [List.foldr] at hx
    rcases List.mem_append.mp hx with h | h
    · cases fn with
      | obj o => exact emitNodes_all_cmd _ _ _ x h
      | null => cases h
      | bool b => cases h
      | int n => cases h
      | str s => cases h
      | arr xs => cases h
    · exact ih x h

/-! Claim theorems. -/

/-- C1. A ContourDirective frame whose single frame node carries a scalar
intensity and an integer node_index list of length over one converts, in the
serial flavor, to one actuate command per index (same intensity, index order
preserved) followed by exactly one pause equal to the frame's duration. -/
theorem serial_broadcast_frame (idxs : List Int) (v dur : Int)
    (h : 1 < idxs.length) :
    expParseSentence (J.obj [("word", J.arr [J.obj
        [("duration", J.int dur),
         ("frame_nodes", J.arr [J.obj
           [("node_index", J.arr (idxs.map J.int)),
            ("intensity", J.int v)]])]])])
      = .ok ((idxs.map fun n => mkCmd n v) ++ [SItem.sleep dur]) := by
  have hfn := parseFrameNode_broadcast idxs v h
  show Except.ok ((((parseFrameNode [("node_index", J.arr (idxs.map J.int)),
        ("intensity", J.int v)] ++ []) ++ [SItem.sleep dur]) ++ []) ++ [])
      = Except.ok ((idxs.map fun n => mkCmd n v) ++ [SItem.sleep dur])
  rw [hfn]
  simp

/-- C1 witness: the spec's concrete example, two indices broadcast at
intensity 50 with duration 100, yielding the serial stream of the two
actuate strings followed by the 100 ms pause. -/
theorem serial_broadcast_frame_witness :
    1 < ([1, 2] : List Int).length ∧
    expParseSentence (J.obj [("word", J.arr [J.obj
        [("duration", J.int 100),
         ("frame_nodes", J.arr [J.obj
           [("node_index", J.arr (([1, 2] : List Int).map J.int)),
            ("intensity", J.int 50)]])]])])
      = .ok ((([1, 2] : List Int).map fun n => mkCmd n 50) ++ [SItem.sleep 100]) :=
  ⟨by decide, serial_broadcast_frame [1, 2] 50 100 (by decide)⟩

/-- C2 counterexample: the exp_client serial conversion raises TypeError on a
bare integer top-level payload, so the conversion does fail for an integer
payload, contrary to the claim. -/
theorem serial_toplevel_int_fails :
    expParseSentence (J.int 5) = Except.error () := rfl

/-- C2 amended. The exp_client serial conversion returns a (possibly partial)
stream exactly when the top-level payload is a mapping or a list, and fails
otherwise — a bare integer fails there too; the picture2notes variant instead
accepts a bare integer as a single pause (and never raises on any payload
shape, being total). -/
theorem serial_toplevel_failure_shape (s : J) (n : Int) :
    ((∃ out, expParseSentence s = .ok out) ↔
      (∃ kvs, s = J.obj kvs) ∨ (∃ xs, s = J.arr xs)) ∧
    contourParseSentence (J.int n) = [SItem.sleep n] := by
  refine ⟨?_, rfl⟩
  cases s <;> simp [expParseSentence]

/-- C5. Every dict frame contributes, in the serial flavor, a block of
actuate commands followed by exactly one pause equal to the frame's duration;
in particular a frame with an empty frame_nodes list contributes exactly its
pause and nothing else. -/
theorem serial_frame_single_pause (kvs : List (String × J)) (d : Int) :
    (∃ acts, parseFrame (J.obj kvs)
        = acts ++ [SItem.sleep (toIntD 0 (objGetD kvs "duration" (J.int 0)))] ∧
      ∀ x ∈ acts, ∃ n w, x = mkCmd n w) ∧
    parseFrame (J.obj [("duration", J.int d), ("frame_nodes", J.arr [])])
      = [SItem.sleep d] := by
  exact ⟨⟨_, rfl, frameNodes_fold_all_cmd _⟩, rfl⟩


/-- Inserting into the order-sorted list grows the length by one. -/
lemma length_insertByOrder (e : FrameEvent) (l : List FrameEvent) :
    (insertByOrder e l).length = l.length + 1 := by
  induction l with
  | nil => rfl
  | cons x xs ih =>
    by_cases hlt : x.order < e.order
    · simp [insertByOrder, hlt, ih]
    · simp [insertByOrder, hlt]

/-- The stable sort preserves the length. -/
lemma length_sortByOrder (l : List FrameEvent) :
    (sortByOrder l).length = l.length := by
  induction l with
  | nil => rfl
  | cons e es ih => simp [sortByOrder, length_insertByOrder, ih]

/-- Membership after insertion is membership before, or the new element. -/
lemma mem_insertByOrder {a e : FrameEvent} {l : List FrameEvent} :
    a ∈ insertByOrder e l ↔ a = e ∨ a ∈ l := by
  induction l with
  | nil => simp [insertByOrder]
  | cons x xs ih =>
    by_cases hlt : x.order < e.order
    · simp only [insertByOrder, if_pos hlt, List.mem_cons, ih]
      tauto
    · simp only [insertByOrder, if_neg hlt, List.mem_cons]

/-- Insertion keeps the list pairwise ordered by the order field. -/
lemma pairwise_insertByOrder (e : FrameEvent) (l : List FrameEvent)
    (hl : List.Pairwise (fun a b => a.order ≤ b.order) l) :
    List.Pairwise (fun a b => a.order ≤ b.order) (insertByOrder e l) := by
  induction l with
  | nil => simp [insertByOrder]
  | cons x xs ih =>
    rcases List.pairwise_cons.mp hl with ⟨hx, hxs⟩
    by_cases hlt : x.order < e.order
    · rw [show insertByOrder e (x :: xs) = x :: insertByOrder e xs from if_pos hlt]
      refine List.pairwise_cons.mpr ⟨?_, ih hxs⟩
      intro y hy
      rcases mem_insertByOrder.mp hy with rfl | hy2
      · exact le_of_lt hlt
      · exact hx y hy2
    · rw [show insertByOrder e (x :: xs) = e :: x :: xs from if_neg hlt]
      refine List.pairwise_cons.mpr ⟨?_, hl⟩
      intro y hy
      rcases List.mem_cons.mp hy with rfl | hy2
      · exact le_of_not_lt hlt
      · exact le_trans (le_of_not_lt hlt) (hx y hy2)

/-- The stable sort produces a list pairwise ordered by the order field. -/
lemma pairwise_sortByOrder (l : List FrameEvent) :
    List.Pairwise (fun a b => a.order ≤ b.order) (sortByOrder l) := by
  induction l with
  | nil => exact List.Pairwise.nil
  | cons e es ih => exact pairwise_insertByOrder e _ ih

/-- Stability of insertion: restricting to one key value, insertion appends
the new element after the existing ones with that key, or changes nothing. -/
lemma filter_insertByOrder (e : FrameEvent) (l : List FrameEvent) (k : Int) :
    (insertByOrder e l).filter (fun a => a.order == k)
      = if e.order == k then e :: l.filter (fun a => a.order == k)
        else l.filter (fun a => a.order == k) := by
  induction l with
  | nil =>
    by_cases he : e.order = k
    · simp [insertByOrder, List.filter_cons, he]
    · simp [insertByOrder, List.filter_cons, he]
  | cons x xs ih =>
    by_cases hlt : x.order < e.order
    · rw [show insertByOrder e (x :: xs) = x :: insertByOrder e xs from if_pos hlt,
        List.filter_cons, ih]
      by_cases he : e.order = k
      · have hx : ¬ x.order = k := by omega
        simp [he, hx, List.filter_cons]
      · by_cases hx : x.order = k
        · simp [he, hx, List.filter_cons]
        · simp [he, hx, List.filter_cons]
    · rw [show insertByOrder e (x :: xs) = e :: x :: xs from if_neg hlt,
        List.filter_cons, List.filter_cons]

/-- Stability of the sort: elements sharing one order value keep their
relative input order. -/
lemma filter_sortByOrder (l : List FrameEvent) (k : Int) :
    (sortByOrder l).filter (fun a => a.order == k)
      = l.filter (fun a => a.order == k) := by
  induction l with
  | nil => rfl
  | cons e es ih =>
    rw [show sortByOrder (e :: es) = insertByOrder e (sortByOrder es) from rfl,
      filter_insertByOrder, ih]
    by_cases he : e.order = k
    · simp [List.filter_cons, he]
    · simp [List.filter_cons, he]


/-- Every constructed keyframe has a weight vector of length 20. -/
lemma mkKeyFrame_weights_length (ev : FrameEvent) :
    (mkKeyFrame ev).weights.length = 20 := by
  simp only [mkKeyFrame]
  split
  · simp [List.length_set]
  · simp

/-- Reading a list after a single in-range write: the written slot holds the
new value, the others are unchanged. -/
lemma getD_set_of_lt {A : Type} (l : List A) (j i : Nat) (v d : A)
    (hi : i < l.length) :
    (l.set j v).getD i d = if i = j then v else l.getD i d := by
  induction l generalizing i j with
  | nil => simp at hi
  | cons x xs ih =>
    cases j with
    | zero =>
      cases i with
      | zero => rfl
      | succ i2 => simp [List.set]
    | succ j2 =>
      cases i with
      | zero => simp [List.set]
      | succ i2 =>
        simp only [List.set, List.getD_cons_succ]
        rw [ih j2 i2 (by simp at hi; omega)]
        by_cases h : i2 = j2
        · simp [h]
        · simp [h]

/-- Reading a zero vector of length 20 after one write. -/
lemma getD_set_replicate (i j : Nat) (v : Int) (hi : i < 20) :
    ((List.replicate 20 (0 : Int)).set j v).getD i 0 = if i = j then v else 0 := by
  rw [getD_set_of_lt _ j i v 0 (by simp [hi])]
  by_cases h : i = j
  · rw [if_pos h, if_pos h]
  · rw [if_neg h, if_neg h, getD_replicate_of_lt 20 i (0 : Int) 0 hi]

/-- C4. Every keyframe emitted by the vendor conversion carries a weight
vector of length exactly 20; an event with node_index in 0..19 places its
intensity, clamped to 0..255, at that slot with every other slot 0; an event
with node_index outside 0..19 yields an all-zero weight vector (so it puts no
non-zero weight anywhere in the output), and the conversion, being a total
function, never fails. -/
theorem vendor_weight_vector (evs : List FrameEvent) (kf : SpatKeyFrame)
    (ev ev2 : FrameEvent) (i : Nat)
    (hkf : kf ∈ formatKeyframes evs)
    (hlo : 0 ≤ ev.node_index) (hhi : ev.node_index < 20) (hi : i < 20)
    (h2 : ¬ (0 ≤ ev2.node_index ∧ ev2.node_index < 20)) :
    kf.weights.length = 20 ∧
    (mkKeyFrame ev).weights.getD i 0
      = (if (i : Int) = ev.node_index then clamp255 ev.intensity else 0) ∧
    (mkKeyFrame ev2).weights = List.replicate 20 0 := by
  refine ⟨?_, ?_, ?_⟩
  · rcases List.mem_map.mp hkf with ⟨e, _, rfl⟩
    exact mkKeyFrame_weights_length e
  · have hw : (mkKeyFrame ev).weights
        = (List.replicate 20 (0 : Int)).set ev.node_index.toNat (clamp255 ev.intensity) := by
      simp [mkKeyFrame, hlo, hhi]
    rw [hw, getD_set_replicate i ev.node_index.toNat (clamp255 ev.intensity) hi]
    by_cases hc : (i : Int) = ev.node_index
    · have hnt : i = ev.node_index.toNat := by omega
      simp [hc, hnt, hlo]
    · have hnt : ¬ i = ev.node_index.toNat := by omega
      simp [hc, hnt, hlo]
  · simp [mkKeyFrame, h2]

/-- C6. The vendor conversion emits keyframes in ascending order of the
order field, and events with equal order keep their relative input order
(stable sort); the keyframe list is exactly the map of the keyframe
constructor over the stably sorted events. -/
theorem vendor_keyframes_stable_sorted (evs : List FrameEvent) (k : Int) :
    List.Pairwise (fun a b => a.order ≤ b.order) (sortByOrder evs) ∧
    (sortByOrder evs).filter (fun e => e.order == k)
      = evs.filter (fun e => e.order == k) ∧
    formatKeyframes evs = (sortByOrder evs).map mkKeyFrame :=
  ⟨pairwise_sortByOrder evs, filter_sortByOrder evs k, rfl⟩

/-- C10. The vendor conversion emits exactly one keyframe per input frame
event; an event whose node_index is outside 0..19 still yields a keyframe
with an all-zero weight vector and timestamp 0, whose annotation records the
raw node_index, intensity and duration. -/
theorem vendor_one_keyframe_per_event (evs : List FrameEvent) (ev : FrameEvent)
    (h2 : ¬ (0 ≤ ev.node_index ∧ ev.node_index < 20)) :
    (formatKeyframes evs).length = evs.length ∧
    mkKeyFrame ev = ⟨"node=" ++ toString ev.node_index ++ ",intensity="
        ++ toString ev.intensity ++ ",dur=" ++ toString ev.duration,
      0, List.replicate 20 0⟩ :=
  ⟨by simp [formatKeyframes, length_sortByOrder], by simp [mkKeyFrame, h2]⟩

/-- C4 witness: a two-slot run with an in-range event at node 5 (intensity
300 clamped to 255) and an out-of-range event at node 25. -/
theorem vendor_weight_vector_witness :
    (mkKeyFrame ⟨0, 5, 300, 10⟩ ∈ formatKeyframes [⟨0, 5, 300, 10⟩]) ∧
    ((mkKeyFrame ⟨0, 5, 300, 10⟩).weights.length = 20 ∧
     (mkKeyFrame (⟨0, 5, 300, 10⟩ : FrameEvent)).weights.getD 5 0
       = (if ((5 : Nat) : Int) = (⟨0, 5, 300, 10⟩ : FrameEvent).node_index
          then clamp255 (⟨0, 5, 300, 10⟩ : FrameEvent).intensity else 0) ∧
     (mkKeyFrame (⟨1, 25, 7, 10⟩ : FrameEvent)).weights = List.replicate 20 0) :=
  ⟨by decide,
   vendor_weight_vector [⟨0, 5, 300, 10⟩] (mkKeyFrame ⟨0, 5, 300, 10⟩)
     ⟨0, 5, 300, 10⟩ ⟨1, 25, 7, 10⟩ 5 (by decide) (by decide) (by decide)
     (by decide) (by decide)⟩

/-- C10 witness: two events, one out of range at node 25, produce exactly
two keyframes, and the out-of-range one is all zeros with the recording
annotation. -/
theorem vendor_one_keyframe_per_event_witness :
    (¬ ((0 : Int) ≤ (⟨1, 25, 7, 10⟩ : FrameEvent).node_index
        ∧ (⟨1, 25, 7, 10⟩ : FrameEvent).node_index < 20)) ∧
    ((formatKeyframes [⟨0, 5, 300, 10⟩, ⟨1, 25, 7, 10⟩]).length
        = ([⟨0, 5, 300, 10⟩, ⟨1, 25, 7, 10⟩] : List FrameEvent).length ∧
     mkKeyFrame (⟨1, 25, 7, 10⟩ : FrameEvent)
       = ⟨"node=" ++ toString (⟨1, 25, 7, 10⟩ : FrameEvent).node_index
            ++ ",intensity=" ++ toString (⟨1, 25, 7, 10⟩ : FrameEvent).intensity
            ++ ",dur=" ++ toString (⟨1, 25, 7, 10⟩ : FrameEvent).duration,
          0, List.replicate 20 0⟩) :=
  ⟨by decide,
   vendor_one_keyframe_per_event [⟨0, 5, 300, 10⟩, ⟨1, 25, 7, 10⟩]
     ⟨1, 25, 7, 10⟩ (by decide)⟩


/-- Rounding a nonnegative rational is nonnegative. -/
lemma pyRound_nonneg (q : Rat) (h : 0 ≤ q) : 0 ≤ pyRound q := by
  have hf : (0 : Int) ≤ ⌊q⌋ := Int.floor_nonneg.mpr h
  unfold pyRound
  split_ifs <;> omega

/-- Rounding never overshoots an integer upper bound. -/
lemma pyRound_le_int (q : Rat) (m : Int) (h : q ≤ (m : Rat)) : pyRound q ≤ m := by
  have hfm : ⌊q⌋ ≤ m := by
    have h2 := Int.floor_le_floor h
    simpa using h2
  have hfl : (⌊q⌋ : Rat) ≤ q := Int.floor_le q
  unfold pyRound
  split_ifs with h1 h2 h3
  · exact hfm
  · have h4 : (⌊q⌋ : Rat) < (m : Rat) := by linarith
    have h5 : ⌊q⌋ < m := by exact_mod_cast h4
    omega
  · exact hfm
  · have h6 : (1 : Rat) / 2 ≤ q - ⌊q⌋ := le_of_not_lt h1
    have h4 : (⌊q⌋ : Rat) < (m : Rat) := by linarith
    have h5 : ⌊q⌋ < m := by exact_mod_cast h4
    omega

/-- Zero rounds to zero. -/
lemma pyRound_zero : pyRound 0 = 0 := by
  unfold pyRound
  norm_num

/-- The byte clamp is nonnegative. -/
lemma clamp255_nonneg (n : Int) : 0 ≤ clamp255 n := le_max_left 0 _

/-- The byte clamp is at most 255. -/
lemma clamp255_le (n : Int) : clamp255 n ≤ 255 := by
  unfold clamp255
  omega

/-- A scaled channel value is nonnegative. -/
lemma scaleChan_nonneg (i c : Int) : 0 ≤ scaleChan i c := by
  apply pyRound_nonneg
  have h1 : (0 : Rat) ≤ (clamp255 c : Rat) := by exact_mod_cast clamp255_nonneg c
  have h2 : (0 : Rat) ≤ (clamp255 i : Rat) := by exact_mod_cast clamp255_nonneg i
  exact mul_nonneg (div_nonneg h1 (by norm_num)) h2

/-- A scaled channel value never exceeds the clamped intensity. -/
lemma scaleChan_le (i c : Int) : scaleChan i c ≤ clamp255 i := by
  apply pyRound_le_int
  have h1 : (clamp255 c : Rat) ≤ 255 := by exact_mod_cast clamp255_le c
  have h2 : (0 : Rat) ≤ (clamp255 i : Rat) := by exact_mod_cast clamp255_nonneg i
  calc (clamp255 c : Rat) / 255 * (clamp255 i : Rat)
      ≤ 1 * (clamp255 i : Rat) := by
        apply mul_le_mul_of_nonneg_right _ h2
        rw [div_le_one (by norm_num)]
        exact h1
    _ = (clamp255 i : Rat) := one_mul _

/-- A zero channel scales to zero for every intensity. -/
lemma scaleChan_zero (i : Int) : scaleChan i 0 = 0 := by
  unfold scaleChan
  norm_num [clamp255, pyRound_zero]

/-- C7. A ColorDirective payload converts, in the serial flavor, to exactly
three actuate commands mapping the r, g and b channels to the fixed nodes 9,
6 and 4, each channel scaled by round(clamp(channel)/255 * clamp(intensity)),
followed by exactly one pause of duration_ms; every scaled channel value lies
in 0..clamp(intensity) and a zero channel scales to 0. -/
theorem color_directive_serial (r g b i d c : Int) (hd : 0 ≤ d) :
    parseColors (J.obj [("color", J.obj [("r", J.int r), ("g", J.int g), ("b", J.int b)]),
        ("intensity", J.int i), ("duration", J.int d)])
      = some [mkCmd 9 (scaleChan i r), mkCmd 6 (scaleChan i g),
              mkCmd 4 (scaleChan i b), SItem.sleep d] ∧
    (0 ≤ scaleChan i c ∧ scaleChan i c ≤ clamp255 i) ∧
    scaleChan i 0 = 0 := by
  refine ⟨?_, ⟨scaleChan_nonneg i c, scaleChan_le i c⟩, scaleChan_zero i⟩
  show some [mkCmd 9 (scaleChan i r), mkCmd 6 (scaleChan i g),
      mkCmd 4 (scaleChan i b), SItem.sleep (max 0 d)]
    = some [mkCmd 9 (scaleChan i r), mkCmd 6 (scaleChan i g),
      mkCmd 4 (scaleChan i b), SItem.sleep d]
  rw [max_eq_right hd]

/-- C7 witness: the payload with color (255, 0, 128), intensity 200 and
duration 160. -/
theorem color_directive_serial_witness :
    (0 : Int) ≤ 160 ∧
    (parseColors (J.obj [("color", J.obj [("r", J.int 255), ("g", J.int 0), ("b", J.int 128)]),
        ("intensity", J.int 200), ("duration", J.int 160)])
      = some [mkCmd 9 (scaleChan 200 255), mkCmd 6 (scaleChan 200 0),
              mkCmd 4 (scaleChan 200 128), SItem.sleep 160] ∧
    (0 ≤ scaleChan 200 77 ∧ scaleChan 200 77 ≤ clamp255 200) ∧
    scaleChan 200 0 = 0) :=
  ⟨by decide, color_directive_serial 255 0 128 200 160 77 (by decide)⟩

/-- C3 counterexample: receiving the set_mode command with value vendor
while the mode is auto leaves the mode unchanged at auto and sends no reply,
contrary to the claim that the mode becomes Vendor with an acknowledgment. -/
theorem set_mode_vendor_ignored :
    handleCmd ⟨"serial", "auto"⟩ "set_mode" "vendor" = (⟨"serial", "auto"⟩, []) := rfl

/-- C3 amended. The set_mode command ignores the value vendor (no state
change, no reply): its accepted values are color, contour and auto, each of
which updates the mode immediately and sends an acknowledgment carrying the
new mode; switching output to the vendor device is done with set_output and
the value skinetic, which updates the output immediately with an
acknowledgment carrying the new output. -/
theorem set_mode_accepted (st : LoopState) (v : String)
    (hv : v = "color" ∨ v = "contour" ∨ v = "auto") :
    handleCmd st "set_mode" "vendor" = (st, []) ∧
    handleCmd st "set_mode" v = ({ st with mode := v }, [Reply.ackMode v]) ∧
    handleCmd st "set_output" "skinetic"
      = ({ st with outputChoice := "skinetic" }, [Reply.ackOutput "skinetic"]) := by
  refine ⟨rfl, ?_, rfl⟩
  rcases hv with rfl | rfl | rfl <;> rfl

/-- C3 witness: from output serial and mode auto, set_mode color switches
the mode with an acknowledgment, and set_output skinetic switches the
output. -/
theorem set_mode_accepted_witness :
    ("color" = "color" ∨ "color" = "contour" ∨ "color" = "auto") ∧
    (handleCmd ⟨"serial", "auto"⟩ "set_mode" "vendor" = (⟨"serial", "auto"⟩, []) ∧
     handleCmd ⟨"serial", "auto"⟩ "set_mode" "color"
       = (⟨"serial", "color"⟩, [Reply.ackMode "color"]) ∧
     handleCmd ⟨"serial", "auto"⟩ "set_output" "skinetic"
       = (⟨"skinetic", "auto"⟩, [Reply.ackOutput "skinetic"])) :=
  ⟨Or.inl rfl, set_mode_accepted ⟨"serial", "auto"⟩ "color" (Or.inl rfl)⟩

/-- Once the backoff reaches the 30 second cap it stays there. -/
lemma failWaits_thirty (k : Nat) : failWaits 30 k = List.replicate k 30 := by
  induction k with
  | zero => rfl
  | succ n ih =>
    show 30 :: failWaits 30 n = List.replicate (n + 1) 30
    rw [ih]
    rfl

/-- C8. The reconnect waits over consecutive failed connection attempts,
starting from the initial backoff of 2 and doubling with a cap of 30, follow
the sequence 2, 4, 8, 16, 30, 30, 30, ...; a successful connection resets the
backoff to its initial value 2. -/
theorem backoff_sequence (k b : Nat) :
    failWaits 2 (k + 4) = [2, 4, 8, 16] ++ List.replicate k 30 ∧
    (loopStep true b).1 = 2 := by
  refine ⟨?_, rfl⟩
  show 2 :: 4 :: 8 :: 16 :: failWaits 30 k = [2, 4, 8, 16] ++ List.replicate k 30
  rw [failWaits_thirty]
  rfl

/-- C9. Receiving the literal heartbeat text sends exactly one pong reply,
skips conversion and dispatch for that message, and keeps the receive loop
running even when sending the reply fails (the failure is only logged); a
JSON payload never triggers a pong. -/
theorem heartbeat_single_pong (ok : Bool) (p : J) :
    handleMsg ok Msg.ping = ⟨1, cond ok 0 1, false, true⟩ ∧
    (handleMsg ok (Msg.json p)).pongsSent = 0 := by
  refine ⟨rfl, ?_⟩
  by_cases hp : isEnvelope p
  · simp [handleMsg, hp]
  · simp [handleMsg, hp]

end HapticClient
